import Mathlib

/-!
# Verification of the Janus integrator (src/integrator_janus.c)

Shallow embedding of `integrator_janus.c`.  Modelling conventions:

* C `double` values are modelled as exact rationals `ℚ`.  All arithmetic on
  them in this file is exact; IEEE rounding of products is not modelled.
* The C wide accumulator `__int128` is modelled as the unbounded integers `ℤ`.
  Signed overflow of `__int128` is undefined behaviour in C and the code
  documents staying in range as a caller precondition, so the unbounded model
  is the faithful one on the defined domain.
* The C cast `(__int128)d` of a `double` truncates toward zero; it is modelled
  by `ratTrunc`.  The C cast `(double)i` of a `__int128` is modelled by the
  exact coercion `(i : ℚ)`.
* `reb_update_acceleration` is an external collaborator (gravity module).  It
  is modelled as an explicit function parameter `grav` from the particle array
  to the list of accelerations, written back into the `ax, ay, az` fields of
  the particles (`writeAcc`); the gravity module recomputes accelerations for
  every particle from the particle states.
* The simulation struct `reb_simulation` is restricted to the fields this
  translation unit reads or writes: `t`, `dt`, `N`, `particles`,
  `gravity_ignore_terms` and the `ri_janus` sub-struct (`scale`,
  `allocated_N`, `p_curr`).  Arrays are modelled as lists; the C loops
  `for(i=0;i<N;i++)` become `take N` / `drop N` decompositions so that the
  model is total even when an array is shorter than `N` (which is undefined
  behaviour in C and excluded by hypotheses in the theorems).
-/

namespace Janus

/-- The C cast `(__int128)q` of a floating-point value: truncation toward
zero (round toward zero, the C conversion semantics). -/
def ratTrunc (q : ℚ) : ℤ := if 0 ≤ q then ⌊q⌋ else ⌈q⌉

/-- `struct reb_particle`, restricted to the fields used in this file:
mass, position, velocity and acceleration. -/
structure Particle where
  m : ℚ
  x : ℚ
  y : ℚ
  z : ℚ
  vx : ℚ
  vy : ℚ
  vz : ℚ
  ax : ℚ
  ay : ℚ
  az : ℚ
deriving DecidableEq

/-- `struct reb_particle_int`: the fixed-point shadow state of one particle,
six wide signed integers. -/
structure ParticleInt where
  x : ℤ
  y : ℤ
  z : ℤ
  vx : ℤ
  vy : ℤ
  vz : ℤ
deriving DecidableEq

/-- The simulation state: the fields of `struct reb_simulation` (including
its `ri_janus` sub-struct) that `integrator_janus.c` reads or writes. -/
structure Simulation where
  t : ℚ
  dt : ℚ
  N : ℕ
  particles : List Particle
  gravity_ignore_terms : ℕ
  scale : ℚ
  allocated_N : ℕ
  p_curr : List ParticleInt
deriving DecidableEq

/-- The external force evaluation: from the particle array to the list of
accelerations `(ax, ay, az)` of the particles. -/
def Grav : Type := List Particle → List (ℚ × ℚ × ℚ)

/-- `to_int` on one particle (`integrator_janus.c` lines 45-50): each of the
six coordinates is multiplied by the scale and cast to the wide integer. -/
def to_int1 (s : ℚ) (p : Particle) : ParticleInt :=
  ⟨ratTrunc (p.x * s), ratTrunc (p.y * s), ratTrunc (p.z * s),
   ratTrunc (p.vx * s), ratTrunc (p.vy * s), ratTrunc (p.vz * s)⟩

/-- `to_int` (lines 43-52): convert the first `N` floating-point particles to
fixed point. -/
def to_int (ps : List Particle) (N : ℕ) (s : ℚ) : List ParticleInt :=
  (ps.take N).map (to_int1 s)

/-- `to_double` on one particle (lines 55-60): the six coordinates of the
floating-point particle are overwritten by the wide integer divided by the
scale; mass and acceleration fields are untouched. -/
def to_double1 (s : ℚ) (q : ParticleInt) (p : Particle) : Particle :=
  { p with x := (q.x : ℚ) / s, y := (q.y : ℚ) / s, z := (q.z : ℚ) / s,
           vx := (q.vx : ℚ) / s, vy := (q.vy : ℚ) / s, vz := (q.vz : ℚ) / s }

/-- `to_double` (lines 53-62): write the first `N` fixed-point states back
into the first `N` floating-point particles. -/
def to_double (ps : List Particle) (psi : List ParticleInt) (N : ℕ) (s : ℚ) :
    List Particle :=
  List.zipWith (to_double1 s) (psi.take N) (ps.take N) ++ ps.drop N

/-- Overwrite the acceleration fields of one particle. -/
def setAcc (p : Particle) (a : ℚ × ℚ × ℚ) : Particle :=
  { p with ax := a.1, ay := a.2.1, az := a.2.2 }

/-- Write a list of accelerations into the acceleration fields of a particle
list, pointwise. -/
def writeAcc : List Particle → List (ℚ × ℚ × ℚ) → List Particle
  | [], _ => []
  | ps, [] => ps
  | p :: ps, a :: accs => setAcc p a :: writeAcc ps accs

/-- `reb_update_acceleration(r)` (external, called at line 77): the gravity
collaborator computes accelerations from the particle array and stores them
in the `ax, ay, az` fields. -/
def reb_update_acceleration (grav : Grav) (ps : List Particle) : List Particle :=
  writeAcc ps (grav ps)

/-- One drift update (lines 70-72 and 86-88): each position coordinate is
incremented by the cast of `dt/2 * (double)v`, the raw fixed-point velocity
cast to floating point (not divided by the scale). -/
def drift1 (dt : ℚ) (q : ParticleInt) : ParticleInt :=
  { q with x := q.x + ratTrunc (dt / 2 * (q.vx : ℚ)),
           y := q.y + ratTrunc (dt / 2 * (q.vy : ℚ)),
           z := q.z + ratTrunc (dt / 2 * (q.vz : ℚ)) }

/-- The drift loop (lines 69-73, 85-89) over the first `N` shadow particles. -/
def drift (dt : ℚ) (N : ℕ) (psi : List ParticleInt) : List ParticleInt :=
  (psi.take N).map (drift1 dt) ++ psi.drop N

/-- One kick update (lines 80-82): each velocity coordinate is incremented by
the cast of `int_scale * dt * a`, the acceleration taken from the
floating-point particle. -/
def kick1 (dt s : ℚ) (q : ParticleInt) (p : Particle) : ParticleInt :=
  { q with vx := q.vx + ratTrunc (s * dt * p.ax),
           vy := q.vy + ratTrunc (s * dt * p.ay),
           vz := q.vz + ratTrunc (s * dt * p.az) }

/-- The kick loop (lines 79-83) over the first `N` shadow particles, reading
accelerations from the floating-point particle array. -/
def kick (dt s : ℚ) (N : ℕ) (psi : List ParticleInt) (ps : List Particle) :
    List ParticleInt :=
  List.zipWith (kick1 dt s) (psi.take N) (ps.take N) ++ psi.drop N

/-- `leapfrog(r, dt)` (lines 64-91): half drift, force evaluation on the
floating-point image of the shadow state, kick, half drift.  The
floating-point particle array is mutated as a by-product (`to_double` and the
acceleration write), and `gravity_ignore_terms` is cleared. -/
def leapfrog (grav : Grav) (r : Simulation) (dt : ℚ) : Simulation :=
  let N := r.N
  let int_scale := r.scale
  let psi1 := drift dt N r.p_curr
  let ps1 := to_double r.particles psi1 N int_scale
  let ps2 := reb_update_acceleration grav ps1
  let psi2 := kick dt int_scale N psi1 ps2
  let psi3 := drift dt N psi2
  { r with gravity_ignore_terms := 0, particles := ps2, p_curr := psi3 }

/-- Composition coefficient `gamma1` (line 93), as the exact value of the
source's decimal literal. -/
def gamma1 : ℚ := 0.39216144400731413928

/-- Composition coefficient `gamma2` (line 94). -/
def gamma2 : ℚ := 0.33259913678935943860

/-- Composition coefficient `gamma3` (line 95). -/
def gamma3 : ℚ := -0.70624617255763935981

/-- Composition coefficient `gamma4` (line 96). -/
def gamma4 : ℚ := 0.082213596293550800230

/-- Composition coefficient `gamma5` (line 97). -/
def gamma5 : ℚ := 0.79854399093482996340

/-- Lines 99-107 of `reb_integrator_janus_part1`: clear
`gravity_ignore_terms`; if the recorded allocation count differs from the
current particle count, reallocate the shadow array to length `N`, record
`N`, and repopulate the shadow state from the current floating-point
particles via `to_int`. -/
def janus_setup (r : Simulation) : Simulation :=
  if r.allocated_N ≠ r.N then
    { r with gravity_ignore_terms := 0, allocated_N := r.N,
             p_curr := to_int r.particles r.N r.scale }
  else
    { r with gravity_ignore_terms := 0 }

/-- `reb_integrator_janus_part1` (lines 98-119): setup, then nine leapfrog
sub-steps with the palindromic coefficient sequence. -/
def reb_integrator_janus_part1 (grav : Grav) (r : Simulation) : Simulation :=
  let r := janus_setup r
  let r := leapfrog grav r (gamma1 * r.dt)
  let r := leapfrog grav r (gamma2 * r.dt)
  let r := leapfrog grav r (gamma3 * r.dt)
  let r := leapfrog grav r (gamma4 * r.dt)
  let r := leapfrog grav r (gamma5 * r.dt)
  let r := leapfrog grav r (gamma4 * r.dt)
  let r := leapfrog grav r (gamma3 * r.dt)
  let r := leapfrog grav r (gamma2 * r.dt)
  let r := leapfrog grav r (gamma1 * r.dt)
  r

/-- `reb_integrator_janus_part2` (lines 121-127): convert the fixed-point
state to floating-point particles and advance the clock by `dt`. -/
def reb_integrator_janus_part2 (r : Simulation) : Simulation :=
  { r with particles := to_double r.particles r.p_curr r.N r.scale,
           t := r.t + r.dt }

/-- `reb_integrator_janus_synchronize` (lines 129-130): a no-op. -/
def reb_integrator_janus_synchronize (r : Simulation) : Simulation := r

/-- `reb_integrator_janus_reset` (lines 131-138): clear the allocation count
and free the shadow array (the freed/null array is modelled as `[]`). -/
def reb_integrator_janus_reset (r : Simulation) : Simulation :=
  { r with allocated_N := 0, p_curr := [] }

/-- Projection of a particle to mass and position, the data a conservative
gravitational force evaluation depends on. -/
def mposOf (p : Particle) : ℚ × ℚ × ℚ × ℚ := (p.m, p.x, p.y, p.z)

/-- Projection of a particle to mass, position and velocity: everything the
force evaluation may read (it recomputes accelerations from scratch). -/
def mstateOf (p : Particle) : ℚ × ℚ × ℚ × ℚ × ℚ × ℚ × ℚ :=
  (p.m, p.x, p.y, p.z, p.vx, p.vy, p.vz)

/-- Projection of a particle to its acceleration fields. -/
def accOf (p : Particle) : ℚ × ℚ × ℚ := (p.ax, p.ay, p.az)

/-- Projection of a particle to its six position/velocity coordinates. -/
def coordsOf (p : Particle) : ℚ × ℚ × ℚ × ℚ × ℚ × ℚ :=
  (p.x, p.y, p.z, p.vx, p.vy, p.vz)

/-- A force evaluation returning zero acceleration for every particle. -/
def gravZero : Grav := fun ps => List.replicate ps.length (0, 0, 0)

/-- A force evaluation returning the constant acceleration `(1,0,0)` for
every particle. -/
def gravOne : Grav := fun ps => List.replicate ps.length ((1 : ℚ), 0, 0)

/-- A particle at rest at the origin with unit mass. -/
def pZero : Particle := ⟨1, 0, 0, 0, 0, 0, 0, 0, 0, 0⟩

/-- A particle with unit mass and nonzero coordinates and accelerations. -/
def pBusy : Particle := ⟨1, 5, 6, 7, 8, 9, 10, 11, 12, 13⟩

/-- A concrete one-particle simulation used to instantiate theorems. -/
def simC : Simulation :=
  { t := 0, dt := 1, N := 1, particles := [pZero], gravity_ignore_terms := 0,
    scale := 10, allocated_N := 1, p_curr := [⟨0, 0, 0, 0, 0, 0⟩] }

/-- `simC` with the floating-point particle replaced by `pBusy` (same mass,
different coordinates and accelerations). -/
def simD : Simulation := { simC with particles := [pBusy] }

/-- `simC` in the freed lifecycle state (allocation count 0, no shadow
array). -/
def simFreed : Simulation := { simC with allocated_N := 0, p_curr := [] }

/-- A shadow particle with raw fixed-point velocity 1 in the x direction. -/
def qVel : ParticleInt := ⟨0, 0, 0, 1, 0, 0⟩

/-! ## Helper lemmas -/

theorem ratTrunc_neg (q : ℚ) : ratTrunc (-q) = -ratTrunc q := by
  unfold ratTrunc
  rcases lt_trichotomy q 0 with h | h | h
  · rw [if_pos (by linarith), if_neg (by linarith), Int.floor_neg]
  · subst h; simp
  · rw [if_neg (by linarith), if_pos (by linarith), Int.ceil_neg]

theorem ratTrunc_sub_lt (v : ℚ) : |(ratTrunc v : ℚ) - v| < 1 := by
  unfold ratTrunc
  split
  · rw [abs_lt]
    constructor <;> linarith [Int.floor_le v, Int.sub_one_lt_floor v]
  · rw [abs_lt]
    constructor <;> linarith [Int.le_ceil v, Int.ceil_lt_add_one v]

theorem ratTrunc_abs_le (v : ℚ) : |(ratTrunc v : ℚ)| ≤ |v| := by
  unfold ratTrunc
  split
  · rename_i h
    rw [abs_of_nonneg h, abs_of_nonneg (by exact_mod_cast Int.floor_nonneg.mpr h)]
    exact Int.floor_le v
  · rename_i h
    have hv : v ≤ 0 := le_of_not_le h
    have hc : ⌈v⌉ ≤ 0 := Int.ceil_le.mpr (by exact_mod_cast hv)
    rw [abs_of_nonpos hv, abs_of_nonpos (by exact_mod_cast hc)]
    have := Int.le_ceil v
    linarith

theorem drift1_inv (dt : ℚ) (q : ParticleInt) :
    drift1 (-dt) (drift1 dt q) = q := by
  have h : ∀ v : ℤ, ratTrunc (-dt / 2 * (v : ℚ)) = -ratTrunc (dt / 2 * (v : ℚ)) := by
    intro v
    rw [show -dt / 2 * (v : ℚ) = -(dt / 2 * (v : ℚ)) by ring, ratTrunc_neg]
  cases q
  simp [drift1, h]

theorem kick1_inv (dt s : ℚ) (q : ParticleInt) (p p' : Particle)
    (h : accOf p' = accOf p) :
    kick1 (-dt) s (kick1 dt s q p) p' = q := by
  have hax : p'.ax = p.ax := congrArg Prod.fst h
  have hay : p'.ay = p.ay := congrArg (fun t => t.2.1) h
  have haz : p'.az = p.az := congrArg (fun t => t.2.2) h
  cases q
  simp [kick1, hax, hay, haz, mul_neg, ratTrunc_neg]

theorem take_eq_of_length_eq {α} {l : List α} {N : ℕ} (h : l.length = N) :
    l.take N = l :=
  List.take_of_length_le (le_of_eq h)

theorem drop_eq_nil_of_length_eq {α} {l : List α} {N : ℕ} (h : l.length = N) :
    l.drop N = [] :=
  List.drop_eq_nil_of_le (le_of_eq h)

theorem zipWith_right_map {α β γ} (f : β → γ) :
    ∀ (l : List α) (l' : List β), l'.length ≤ l.length →
      List.zipWith (fun _ b => f b) l l' = l'.map f := by
  intro l
  induction l with
  | nil =>
    intro l' h
    cases l' with
    | nil => rfl
    | cons b t => simp at h
  | cons a t ih =>
    intro l' h
    cases l' with
    | nil => rfl
    | cons b t' =>
      simp only [List.zipWith_cons_cons, List.map_cons, List.length_cons] at h ⊢
      rw [ih t' (by omega)]

theorem zipWith_zipWith_same {α β γ δ} (f : γ → β → δ) (g : α → β → γ) :
    ∀ (l : List α) (l' : List β),
      List.zipWith f (List.zipWith g l l') l' =
        List.zipWith (fun a b => f (g a b) b) l l' := by
  intro l
  induction l with
  | nil => intro l'; rfl
  | cons a t ih =>
    intro l'
    cases l' with
    | nil => rfl
    | cons b t' => simp only [List.zipWith_cons_cons]; rw [ih]

theorem zipWith_congr_right {α β γ δ} (f : α → β → γ) (g : β → δ)
    (hf : ∀ a b b', g b = g b' → f a b = f a b') :
    ∀ (l : List α) (l₁ l₂ : List β), l₁.map g = l₂.map g →
      List.zipWith f l l₁ = List.zipWith f l l₂ := by
  intro l
  induction l with
  | nil => intro l₁ l₂ _; rfl
  | cons a t ih =>
    intro l₁ l₂ h
    cases l₁ with
    | nil =>
      cases l₂ with
      | nil => rfl
      | cons b' t₂ => simp at h
    | cons b t₁ =>
      cases l₂ with
      | nil => simp at h
      | cons b' t₂ =>
        simp only [List.map_cons, List.cons.injEq] at h
        simp only [List.zipWith_cons_cons]
        rw [hf a b b' h.1, ih t₁ t₂ h.2]

theorem writeAcc_length : ∀ (ps : List Particle) (accs : List (ℚ × ℚ × ℚ)),
    (writeAcc ps accs).length = ps.length := by
  intro ps
  induction ps with
  | nil => intro accs; cases accs <;> rfl
  | cons p t ih =>
    intro accs
    cases accs with
    | nil => rfl
    | cons a accs => simp [writeAcc, ih]

theorem map_writeAcc {α} (f : Particle → α) (hf : ∀ p a, f (setAcc p a) = f p) :
    ∀ (ps : List Particle) (accs : List (ℚ × ℚ × ℚ)),
      (writeAcc ps accs).map f = ps.map f := by
  intro ps
  induction ps with
  | nil => intro accs; cases accs <;> rfl
  | cons p t ih =>
    intro accs
    cases accs with
    | nil => rfl
    | cons a accs => simp [writeAcc, ih, hf]

theorem writeAcc_writeAcc : ∀ (ps : List Particle) (accs : List (ℚ × ℚ × ℚ)),
    writeAcc (writeAcc ps accs) accs = writeAcc ps accs := by
  intro ps
  induction ps with
  | nil => intro accs; cases accs <;> rfl
  | cons p t ih =>
    intro accs
    cases accs with
    | nil => rfl
    | cons a accs => simp [writeAcc, ih, setAcc]

theorem map_accOf_writeAcc_congr :
    ∀ (a b : List Particle) (accs : List (ℚ × ℚ × ℚ)),
      a.map accOf = b.map accOf →
      (writeAcc a accs).map accOf = (writeAcc b accs).map accOf := by
  intro a
  induction a with
  | nil =>
    intro b accs h
    cases b with
    | nil => rfl
    | cons p' t' => simp at h
  | cons p t ih =>
    intro b accs h
    cases b with
    | nil => simp at h
    | cons p' t' =>
      simp only [List.map_cons, List.cons.injEq] at h
      cases accs with
      | nil => simp [writeAcc, h.1, h.2]
      | cons a0 accs =>
        simp only [writeAcc, List.map_cons, List.cons.injEq]
        exact ⟨rfl, ih t' accs h.2⟩

theorem setAcc_congr {p p' : Particle} (a : ℚ × ℚ × ℚ)
    (h : mstateOf p = mstateOf p') : setAcc p a = setAcc p' a := by
  cases p; cases p'
  simp_all [mstateOf, setAcc]

theorem writeAcc_eq_of_mstate_eq :
    ∀ (a b : List Particle) (accs : List (ℚ × ℚ × ℚ)),
      a.map mstateOf = b.map mstateOf → a.length ≤ accs.length →
      writeAcc a accs = writeAcc b accs := by
  intro a
  induction a with
  | nil =>
    intro b accs h _
    cases b with
    | nil => rfl
    | cons p' t' => simp at h
  | cons p t ih =>
    intro b accs h hl
    cases b with
    | nil => simp at h
    | cons p' t' =>
      cases accs with
      | nil => simp at hl
      | cons a0 accs =>
        simp only [List.map_cons, List.cons.injEq] at h
        simp only [writeAcc, List.cons.injEq]
        exact ⟨setAcc_congr a0 h.1, ih t' accs h.2 (by simpa using hl)⟩

theorem to_double_eq_zipWith {s : ℚ} {N : ℕ} {ps : List Particle}
    {psi : List ParticleInt} (h1 : psi.length = N) (h2 : ps.length = N) :
    to_double ps psi N s = List.zipWith (to_double1 s) psi ps := by
  rw [to_double, take_eq_of_length_eq h1, take_eq_of_length_eq h2,
    drop_eq_nil_of_length_eq h2, List.append_nil]

theorem kick_eq_zipWith {d s : ℚ} {N : ℕ} {psi : List ParticleInt}
    {ps : List Particle} (h1 : psi.length = N) (h2 : ps.length = N) :
    kick d s N psi ps = List.zipWith (kick1 d s) psi ps := by
  rw [kick, take_eq_of_length_eq h1, take_eq_of_length_eq h2,
    drop_eq_nil_of_length_eq h1, List.append_nil]

theorem drift_eq_map {d : ℚ} {N : ℕ} {l : List ParticleInt} (h : l.length = N) :
    drift d N l = l.map (drift1 d) := by
  rw [drift, take_eq_of_length_eq h, drop_eq_nil_of_length_eq h, List.append_nil]

theorem drift_length (d : ℚ) (N : ℕ) (l : List ParticleInt) :
    (drift d N l).length = l.length := by
  simp only [drift, List.length_append, List.length_map, List.length_take,
    List.length_drop]
  omega

theorem to_double_length {s : ℚ} {N : ℕ} {ps : List Particle}
    {psi : List ParticleInt} (h : N ≤ psi.length) :
    (to_double ps psi N s).length = ps.length := by
  simp only [to_double, List.length_append, List.length_zipWith,
    List.length_take, List.length_drop]
  omega

theorem to_double_map {α} (f : Particle → α)
    (hf : ∀ (s : ℚ) (q : ParticleInt) (p : Particle), f (to_double1 s q p) = f p)
    {s : ℚ} {N : ℕ} {ps : List Particle} {psi : List ParticleInt}
    (h : N ≤ psi.length) :
    (to_double ps psi N s).map f = ps.map f := by
  rw [to_double, List.map_append, List.map_zipWith]
  have he : (fun q p => f (to_double1 s q p)) = (fun (_ : ParticleInt) p => f p) := by
    funext q p; exact hf s q p
  rw [he, zipWith_right_map f _ _
      (by simp only [List.length_take]; omega),
    ← List.map_append, List.take_append_drop]

theorem to_double_drop {s : ℚ} {N : ℕ} {ps : List Particle}
    {psi : List ParticleInt} (h : N ≤ psi.length) :
    (to_double ps psi N s).drop N = ps.drop N := by
  rw [to_double]
  have haux : ∀ (A B : List Particle), A.length = N → (A ++ B).drop N = B := by
    intro A B hAB
    rw [← hAB, List.drop_left]
  rcases le_or_lt N ps.length with hle | hlt
  · exact haux _ _ (by simp only [List.length_zipWith, List.length_take]; omega)
  · have hdrop : ps.drop N = [] := List.drop_eq_nil_of_le (by omega)
    rw [hdrop, List.append_nil, List.drop_eq_nil_of_le]
    simp only [List.length_zipWith, List.length_take]
    omega

theorem to_int_length (s : ℚ) (N : ℕ) (ps : List Particle) :
    (to_int ps N s).length = min N ps.length := by
  simp [to_int]

theorem to_int_cons (s : ℚ) (p : Particle) (ps : List Particle) (N : ℕ) :
    to_int (p :: ps) (N + 1) s = to_int1 s p :: to_int ps N s := by
  simp [to_int]

theorem to_double_cons (s : ℚ) (p : Particle) (ps : List Particle)
    (q : ParticleInt) (psi : List ParticleInt) (N : ℕ) :
    to_double (p :: ps) (q :: psi) (N + 1) s =
      to_double1 s q p :: to_double ps psi N s := by
  simp [to_double]

theorem roundtrip_getElem (s : ℚ) :
    ∀ (ps : List Particle) (N i : ℕ) (p : Particle),
      ps[i]? = some p → i < N →
      (to_double ps (to_int ps N s) N s)[i]? =
        some (to_double1 s (to_int1 s p) p) := by
  intro ps
  induction ps with
  | nil => intro N i p hp _; simp at hp
  | cons p₀ tl ih =>
    intro N i p hp hi
    cases N with
    | zero => omega
    | succ n =>
      rw [to_int_cons, to_double_cons]
      cases i with
      | zero =>
        simp only [List.getElem?_cons_zero, Option.some.injEq] at hp
        subst hp
        simp
      | succ j =>
        simp only [List.getElem?_cons_succ] at hp ⊢
        exact ih n j p hp (by omega)

theorem quantization_bound {s : ℚ} (hs : 0 < s) (x : ℚ) :
    |(ratTrunc (x * s) : ℚ) / s - x| ≤ 1 / s := by
  have h := ratTrunc_sub_lt (x * s)
  have he : (ratTrunc (x * s) : ℚ) / s - x = ((ratTrunc (x * s) : ℚ) - x * s) / s := by
    field_simp
    ring
  rw [he, abs_div, abs_of_pos hs]
  exact (div_le_div_iff_of_pos_right hs).mpr h.le

theorem leapfrog_dt (grav : Grav) (r : Simulation) (d : ℚ) :
    (leapfrog grav r d).dt = r.dt := rfl

theorem leapfrog_t (grav : Grav) (r : Simulation) (d : ℚ) :
    (leapfrog grav r d).t = r.t := rfl

theorem janus_setup_dt (r : Simulation) : (janus_setup r).dt = r.dt := by
  unfold janus_setup; split <;> rfl

theorem janus_setup_t (r : Simulation) : (janus_setup r).t = r.t := by
  unfold janus_setup; split <;> rfl

theorem leapfrog_N (grav : Grav) (r : Simulation) (d : ℚ) :
    (leapfrog grav r d).N = r.N := rfl

theorem leapfrog_scale (grav : Grav) (r : Simulation) (d : ℚ) :
    (leapfrog grav r d).scale = r.scale := rfl

theorem leapfrog_allocated (grav : Grav) (r : Simulation) (d : ℚ) :
    (leapfrog grav r d).allocated_N = r.allocated_N := rfl

theorem leapfrog_p_curr (grav : Grav) (r : Simulation) (d : ℚ) :
    (leapfrog grav r d).p_curr =
      drift d r.N (kick d r.scale r.N (drift d r.N r.p_curr)
        (reb_update_acceleration grav
          (to_double r.particles (drift d r.N r.p_curr) r.N r.scale))) := rfl

theorem leapfrog_particles (grav : Grav) (r : Simulation) (d : ℚ) :
    (leapfrog grav r d).particles =
      reb_update_acceleration grav
        (to_double r.particles (drift d r.N r.p_curr) r.N r.scale) := rfl

theorem kick_length (d s : ℚ) (N : ℕ) (psi : List ParticleInt)
    (ps : List Particle) (h1 : psi.length = N) (h2 : N ≤ ps.length) :
    (kick d s N psi ps).length = N := by
  simp only [kick, List.length_append, List.length_zipWith, List.length_take,
    List.length_drop]
  omega

theorem leapfrog_lengths (grav : Grav) (r : Simulation) (d : ℚ)
    (hp : r.particles.length = r.N) (hc : r.p_curr.length = r.N) :
    (leapfrog grav r d).particles.length = r.N
    ∧ (leapfrog grav r d).p_curr.length = r.N := by
  have h1 : (drift d r.N r.p_curr).length = r.N := by rw [drift_length]; exact hc
  have h2 : (to_double r.particles (drift d r.N r.p_curr) r.N r.scale).length
      = r.N := by
    rw [to_double_length (le_of_eq h1.symm)]; exact hp
  have h3 : (reb_update_acceleration grav
      (to_double r.particles (drift d r.N r.p_curr) r.N r.scale)).length = r.N := by
    rw [reb_update_acceleration, writeAcc_length]; exact h2
  constructor
  · rw [leapfrog_particles]; exact h3
  · rw [leapfrog_p_curr, drift_length]
    exact kick_length _ _ _ _ _ h1 (le_of_eq h3.symm)

theorem foldl_leapfrog_invariant (grav : Grav) (d : ℚ) :
    ∀ (cs : List ℚ) (s : Simulation),
      s.particles.length = s.N → s.p_curr.length = s.N →
      (List.foldl (fun s c => leapfrog grav s (c * d)) s cs).particles.length = s.N
      ∧ (List.foldl (fun s c => leapfrog grav s (c * d)) s cs).p_curr.length = s.N
      ∧ (List.foldl (fun s c => leapfrog grav s (c * d)) s cs).N = s.N
      ∧ (List.foldl (fun s c => leapfrog grav s (c * d)) s cs).allocated_N =
          s.allocated_N := by
  intro cs
  induction cs with
  | nil => intro s h1 h2; exact ⟨h1, h2, rfl, rfl⟩
  | cons c cs ih =>
    intro s h1 h2
    simp only [List.foldl_cons]
    have hl := leapfrog_lengths grav s (c * d) h1 h2
    exact ih (leapfrog grav s (c * d)) hl.1 hl.2

theorem part1_eq_foldl (grav : Grav) (r : Simulation) :
    reb_integrator_janus_part1 grav r =
      List.foldl (fun s c => leapfrog grav s (c * r.dt)) (janus_setup r)
        [gamma1, gamma2, gamma3, gamma4, gamma5, gamma4, gamma3, gamma2, gamma1] := by
  simp only [reb_integrator_janus_part1, List.foldl_cons, List.foldl_nil,
    leapfrog_dt, janus_setup_dt]

theorem janus_setup_particles (r : Simulation) :
    (janus_setup r).particles = r.particles := by
  unfold janus_setup; split <;> rfl

theorem janus_setup_N (r : Simulation) : (janus_setup r).N = r.N := by
  unfold janus_setup; split <;> rfl

theorem janus_setup_scale (r : Simulation) : (janus_setup r).scale = r.scale := by
  unfold janus_setup; split <;> rfl

theorem janus_setup_allocated (r : Simulation) :
    (janus_setup r).allocated_N = r.N := by
  unfold janus_setup
  split
  · rfl
  · rename_i h; exact not_ne_iff.mp h

theorem map_inv_cancel {α β} (f : α → β) (g : β → α) (h : ∀ a, g (f a) = a)
    (l : List α) : (l.map f).map g = l := by
  rw [List.map_map, show g ∘ f = id from funext h, List.map_id]

theorem kick_zip_inv (d s : ℚ) :
    ∀ (l : List ParticleInt) (a b : List Particle),
      a.map accOf = b.map accOf → l.length ≤ a.length →
      List.zipWith (kick1 (-d) s) (List.zipWith (kick1 d s) l a) b = l := by
  intro l
  induction l with
  | nil => intro a b _ _; rfl
  | cons q l ih =>
    intro a b h hl
    cases a with
    | nil => simp at hl
    | cons p a =>
      cases b with
      | nil => simp at h
      | cons p' b =>
        simp only [List.map_cons, List.cons.injEq] at h
        simp only [List.zipWith_cons_cons]
        rw [kick1_inv d s q p p' h.1.symm, ih a b h.2 (by simpa using hl)]

/-! ## Claim theorems -/

/-- C8: the five composition coefficients satisfy the palindromic
normalization `2γ1+2γ2+2γ3+2γ4+γ5 = 1` — over the exact values of the
source's decimal constants the sum is exactly `1`, hence in particular within
double-precision tolerance `2^-52`. -/
theorem gamma_normalization :
    2 * gamma1 + 2 * gamma2 + 2 * gamma3 + 2 * gamma4 + gamma5 = 1 ∧
    |2 * gamma1 + 2 * gamma2 + 2 * gamma3 + 2 * gamma4 + gamma5 - 1|
      ≤ (2 : ℚ) ^ (-52 : ℤ) := by
  have h : 2 * gamma1 + 2 * gamma2 + 2 * gamma3 + 2 * gamma4 + gamma5 = 1 := by
    norm_num [gamma1, gamma2, gamma3, gamma4, gamma5]
  exact ⟨h, by rw [h]; simp; positivity⟩

/-- C7: `reb_integrator_janus_reset` clears the allocation count and
deallocates the shadow array, is idempotent, and leaves an
already-deallocated state unchanged. -/
theorem reset_facts (r : Simulation) :
    (reb_integrator_janus_reset r).allocated_N = 0
    ∧ (reb_integrator_janus_reset r).p_curr = []
    ∧ reb_integrator_janus_reset (reb_integrator_janus_reset r) =
        reb_integrator_janus_reset r
    ∧ (r.allocated_N = 0 → r.p_curr = [] → reb_integrator_janus_reset r = r) := by
  refine ⟨rfl, rfl, rfl, fun h1 h2 => ?_⟩
  cases r
  simp_all [reb_integrator_janus_reset]

/-- Witness for C7: applying reset to a concrete already-deallocated
simulation leaves it unchanged, and reset clears a concrete allocated one. -/
theorem reset_facts_witness :
    reb_integrator_janus_reset simFreed = simFreed
    ∧ (reb_integrator_janus_reset simC).allocated_N = 0 := by
  exact ⟨(reset_facts simFreed).2.2.2 rfl rfl, (reset_facts simC).1⟩

/-- C2: one call to `reb_integrator_janus_part1` is the setup followed by
exactly nine leapfrog sub-steps whose durations are the full timestep `r.dt`
multiplied by the coefficients in the palindromic order
γ1, γ2, γ3, γ4, γ5, γ4, γ3, γ2, γ1, and these coefficients have the exact
decimal values of the source. -/
theorem part1_substep_sequence (grav : Grav) (r : Simulation) :
    reb_integrator_janus_part1 grav r =
      List.foldl (fun s c => leapfrog grav s (c * r.dt)) (janus_setup r)
        [gamma1, gamma2, gamma3, gamma4, gamma5, gamma4, gamma3, gamma2, gamma1]
    ∧ gamma1 = 0.39216144400731413928
    ∧ gamma2 = 0.33259913678935943860
    ∧ gamma3 = -0.70624617255763935981
    ∧ gamma4 = 0.082213596293550800230
    ∧ gamma5 = 0.79854399093482996340 := by
  refine ⟨?_, rfl, rfl, rfl, rfl, rfl⟩
  simp only [reb_integrator_janus_part1, List.foldl_cons, List.foldl_nil,
    leapfrog_dt, janus_setup_dt]

/-- C3 counterexample: in the drift of a sub-step of duration `dt = 9/5`, a
particle with raw fixed-point velocity `vx = 1` has its position incremented
by `0` (the truncation toward zero of `dt/2 * vx = 9/10`), not by the nearest
wide integer `round (9/10) = 1` the claim predicts. -/
theorem drift_increment_not_nearest :
    drift (9 / 5) 1 [qVel] = [drift1 (9 / 5) qVel]
    ∧ (drift1 (9 / 5) qVel).x = qVel.x + ratTrunc ((9 / 5 : ℚ) / 2 * (qVel.vx : ℚ))
    ∧ qVel.x + ratTrunc ((9 / 5 : ℚ) / 2 * (qVel.vx : ℚ)) = 0
    ∧ qVel.x + round ((9 / 5 : ℚ) / 2 * (qVel.vx : ℚ)) = 1 := by
  refine ⟨by with_unfolding_all rfl, rfl, by with_unfolding_all rfl,
    by with_unfolding_all rfl⟩

/-- C3 amended: in every leapfrog sub-step each position coordinate is
incremented, once before and once after the kick, by the *truncation toward
zero* (not round-to-nearest) of `dt/2` times the raw fixed-point velocity
cast to floating point, and each velocity coordinate by the truncation toward
zero of `scale * dt * acceleration`; `ratTrunc` is truncation toward zero in
the sense that it is within 1 of its argument and never larger in
magnitude. -/
theorem leapfrog_increments_truncated (dt s : ℚ) (q : ParticleInt)
    (p : Particle) (grav : Grav) (r : Simulation) :
    ((drift1 dt q).x = q.x + ratTrunc (dt / 2 * (q.vx : ℚ))
      ∧ (drift1 dt q).y = q.y + ratTrunc (dt / 2 * (q.vy : ℚ))
      ∧ (drift1 dt q).z = q.z + ratTrunc (dt / 2 * (q.vz : ℚ))
      ∧ (drift1 dt q).vx = q.vx ∧ (drift1 dt q).vy = q.vy
      ∧ (drift1 dt q).vz = q.vz)
    ∧ ((kick1 dt s q p).vx = q.vx + ratTrunc (s * dt * p.ax)
      ∧ (kick1 dt s q p).vy = q.vy + ratTrunc (s * dt * p.ay)
      ∧ (kick1 dt s q p).vz = q.vz + ratTrunc (s * dt * p.az)
      ∧ (kick1 dt s q p).x = q.x ∧ (kick1 dt s q p).y = q.y
      ∧ (kick1 dt s q p).z = q.z)
    ∧ (leapfrog grav r dt).p_curr =
        drift dt r.N (kick dt r.scale r.N (drift dt r.N r.p_curr)
          (reb_update_acceleration grav
            (to_double r.particles (drift dt r.N r.p_curr) r.N r.scale)))
    ∧ (∀ v : ℚ, |(ratTrunc v : ℚ) - v| < 1 ∧ |(ratTrunc v : ℚ)| ≤ |v|) := by
  refine ⟨⟨rfl, rfl, rfl, rfl, rfl, rfl⟩, ⟨rfl, rfl, rfl, rfl, rfl, rfl⟩, rfl,
    fun v => ⟨ratTrunc_sub_lt v, ratTrunc_abs_le v⟩⟩

/-- C4: `part1` never advances the clock; `part2` overwrites the
floating-point particles with the fixed-point state converted by `to_double`
(each wide coordinate divided by the scale) and advances the clock by exactly
`dt`; and `part1` does *not* write the final fixed-point state back: there is
a run after which the floating-point particles differ from the `to_double`
image of the final fixed-point state. -/
theorem part1_part2_clock_and_writeback :
    (∀ (grav : Grav) (r : Simulation),
      (reb_integrator_janus_part1 grav r).t = r.t)
    ∧ (∀ r : Simulation,
      (reb_integrator_janus_part2 r).t = r.t + r.dt
      ∧ (reb_integrator_janus_part2 r).particles =
          to_double r.particles r.p_curr r.N r.scale
      ∧ (reb_integrator_janus_part2 r).dt = r.dt)
    ∧ (∀ (s : ℚ) (q : ParticleInt) (p : Particle),
      (to_double1 s q p).x = (q.x : ℚ) / s ∧ (to_double1 s q p).y = (q.y : ℚ) / s
      ∧ (to_double1 s q p).z = (q.z : ℚ) / s
      ∧ (to_double1 s q p).vx = (q.vx : ℚ) / s
      ∧ (to_double1 s q p).vy = (q.vy : ℚ) / s
      ∧ (to_double1 s q p).vz = (q.vz : ℚ) / s)
    ∧ (∃ (grav : Grav) (r : Simulation),
      (reb_integrator_janus_part1 grav r).particles ≠
        to_double (reb_integrator_janus_part1 grav r).particles
          (reb_integrator_janus_part1 grav r).p_curr
          (reb_integrator_janus_part1 grav r).N
          (reb_integrator_janus_part1 grav r).scale) := by
  refine ⟨?_, fun r => ⟨rfl, rfl, rfl⟩,
    fun s q p => ⟨rfl, rfl, rfl, rfl, rfl, rfl⟩,
    ⟨gravOne, simC, by with_unfolding_all decide⟩⟩
  intro grav r
  simp only [reb_integrator_janus_part1, leapfrog_t, janus_setup_t]

/-- C6: converting a particle list to fixed point and back (`to_double` after
`to_int`, same `N` and scale `s > 0`) changes each of the six coordinates of
each of the first `N` particles by at most `1/s`. -/
theorem to_int_to_double_roundtrip (s : ℚ) (hs : 0 < s) (ps : List Particle)
    (N i : ℕ) (p : Particle) (hp : ps[i]? = some p) (hi : i < N) :
    ∃ p', (to_double ps (to_int ps N s) N s)[i]? = some p'
      ∧ |p'.x - p.x| ≤ 1 / s ∧ |p'.y - p.y| ≤ 1 / s ∧ |p'.z - p.z| ≤ 1 / s
      ∧ |p'.vx - p.vx| ≤ 1 / s ∧ |p'.vy - p.vy| ≤ 1 / s
      ∧ |p'.vz - p.vz| ≤ 1 / s := by
  refine ⟨to_double1 s (to_int1 s p) p, roundtrip_getElem s ps N i p hp hi,
    ?_, ?_, ?_, ?_, ?_, ?_⟩ <;>
    simpa [to_double1, to_int1] using quantization_bound hs _

/-- Witness for C6: the round trip at scale 2 on a concrete particle. -/
theorem to_int_to_double_roundtrip_witness :
    ∃ p', (to_double [pBusy] (to_int [pBusy] 1 2) 1 2)[0]? = some p'
      ∧ |p'.x - pBusy.x| ≤ 1 / 2 ∧ |p'.y - pBusy.y| ≤ 1 / 2
      ∧ |p'.z - pBusy.z| ≤ 1 / 2 ∧ |p'.vx - pBusy.vx| ≤ 1 / 2
      ∧ |p'.vy - pBusy.vy| ≤ 1 / 2 ∧ |p'.vz - pBusy.vz| ≤ 1 / 2 := by
  simpa using to_int_to_double_roundtrip 2 (by norm_num) [pBusy] 1 0 pBusy rfl
    (by norm_num)

/-- C10: `part2` rewrites only the six position/velocity coordinates of the
first `N` particles and the clock: masses and accelerations of all particles,
the particles beyond index `N`, the particle-array length, the scale, the
allocation count, the shadow array, the particle count and the timestep are
all unchanged, and the clock advances by exactly `dt`. -/
theorem part2_frame (r : Simulation) (h : r.N ≤ r.p_curr.length) :
    (reb_integrator_janus_part2 r).particles.map Particle.m =
        r.particles.map Particle.m
    ∧ (reb_integrator_janus_part2 r).particles.map accOf =
        r.particles.map accOf
    ∧ (reb_integrator_janus_part2 r).particles.length = r.particles.length
    ∧ (reb_integrator_janus_part2 r).particles.drop r.N = r.particles.drop r.N
    ∧ (reb_integrator_janus_part2 r).scale = r.scale
    ∧ (reb_integrator_janus_part2 r).allocated_N = r.allocated_N
    ∧ (reb_integrator_janus_part2 r).p_curr = r.p_curr
    ∧ (reb_integrator_janus_part2 r).dt = r.dt
    ∧ (reb_integrator_janus_part2 r).N = r.N
    ∧ (reb_integrator_janus_part2 r).t = r.t + r.dt := by
  refine ⟨to_double_map Particle.m (fun _ _ _ => rfl) h,
    to_double_map accOf (fun _ _ _ => rfl) h,
    to_double_length h, to_double_drop h, rfl, rfl, rfl, rfl, rfl, rfl⟩

/-- Witness for C10: `part2` on a concrete simulation keeps mass and
acceleration maps, the shadow state and the timestep, and advances the
clock. -/
theorem part2_frame_witness :
    (reb_integrator_janus_part2 simC).particles.map Particle.m =
        simC.particles.map Particle.m
    ∧ (reb_integrator_janus_part2 simC).p_curr = simC.p_curr
    ∧ (reb_integrator_janus_part2 simC).t = simC.t + simC.dt := by
  have h := part2_frame simC (by norm_num [simC])
  exact ⟨h.1, h.2.2.2.2.2.2.1, h.2.2.2.2.2.2.2.2.2⟩

/-- C5: at the top of `part1`, if `allocated_N ≠ N` the shadow array is
rebuilt to length `N` from the current floating-point particles via `to_int`
and `allocated_N` is set to `N`; if `allocated_N = N` the shadow state is
untouched.  Consequently the invariant "shadow length equals the recorded
allocation count, which after `part1` equals the particle count" holds after
`part1`, and after `reset` the array is unallocated with count 0. -/
theorem part1_allocation_invariant (grav : Grav) (r : Simulation)
    (hp : r.particles.length = r.N) (hinv : r.p_curr.length = r.allocated_N) :
    (r.allocated_N ≠ r.N →
        (janus_setup r).p_curr = to_int r.particles r.N r.scale
        ∧ (janus_setup r).allocated_N = r.N)
    ∧ (r.allocated_N = r.N →
        (janus_setup r).p_curr = r.p_curr
        ∧ (janus_setup r).allocated_N = r.allocated_N)
    ∧ (janus_setup r).p_curr.length = (janus_setup r).allocated_N
    ∧ (reb_integrator_janus_part1 grav r).p_curr.length =
        (reb_integrator_janus_part1 grav r).allocated_N
    ∧ (reb_integrator_janus_part1 grav r).allocated_N = r.N
    ∧ (reb_integrator_janus_reset r).p_curr.length =
        (reb_integrator_janus_reset r).allocated_N
    ∧ (reb_integrator_janus_reset r).allocated_N = 0 := by
  have hlen : (janus_setup r).p_curr.length = r.N := by
    unfold janus_setup
    split
    · simp only [to_int_length]; omega
    · rename_i h
      have he : r.allocated_N = r.N := not_ne_iff.mp h
      simpa [hinv] using he
  have hfold := foldl_leapfrog_invariant grav r.dt
    [gamma1, gamma2, gamma3, gamma4, gamma5, gamma4, gamma3, gamma2, gamma1]
    (janus_setup r)
    (by rw [janus_setup_particles, janus_setup_N]; exact hp)
    (by rw [janus_setup_N]; exact hlen)
  refine ⟨fun h => ?_, fun h => ?_, ?_, ?_, ?_, rfl, rfl⟩
  · unfold janus_setup
    rw [if_pos h]
    exact ⟨rfl, rfl⟩
  · unfold janus_setup
    rw [if_neg (not_ne_iff.mpr h)]
    exact ⟨rfl, rfl⟩
  · rw [hlen, janus_setup_allocated]
  · rw [part1_eq_foldl, hfold.2.1, hfold.2.2.2, janus_setup_allocated,
      janus_setup_N]
  · rw [part1_eq_foldl, hfold.2.2.2, janus_setup_allocated]

/-- Witness for C5: on a concrete simulation whose allocation count (0)
differs from its particle count (1), `part1` rebuilds the shadow state and
establishes the invariant. -/
theorem part1_allocation_invariant_witness :
    (janus_setup simFreed).p_curr = to_int simFreed.particles simFreed.N simFreed.scale
    ∧ (reb_integrator_janus_part1 gravZero simFreed).allocated_N = simFreed.N
    ∧ (reb_integrator_janus_part1 gravZero simFreed).p_curr.length =
        (reb_integrator_janus_part1 gravZero simFreed).allocated_N := by
  have h := part1_allocation_invariant gravZero simFreed (by norm_num [simFreed, simC])
    (by norm_num [simFreed, simC])
  exact ⟨(h.1 (by norm_num [simFreed, simC])).1, h.2.2.2.2.1, h.2.2.2.1⟩

/-- C1: applying the leapfrog sub-step with `+dt` and then with `-dt`
restores every particle's six wide-integer fields bit-for-bit.  The claim's
hypothesis — that the force evaluation returns identical accelerations at
identical floating-point particle states on both passes — is rendered by
requiring the force evaluation to be a function of the masses and positions
of the particle array (`mposOf`): the two evaluations happen at identical
masses and positions (the drift cancels exactly), so a force evaluation of
this class returns identical accelerations on both passes. -/
theorem leapfrog_time_reversible (grav : Grav)
    (hgrav : ∀ a b : List Particle, a.map mposOf = b.map mposOf → grav a = grav b)
    (r : Simulation) (d : ℚ)
    (hp : r.particles.length = r.N) (hc : r.p_curr.length = r.N) :
    (leapfrog grav (leapfrog grav r d) (-d)).p_curr = r.p_curr := by
  simp only [leapfrog_p_curr, leapfrog_particles, leapfrog_N, leapfrog_scale]
  set ψ1 := drift d r.N r.p_curr with hψ1
  set ps1 := to_double r.particles ψ1 r.N r.scale with hps1
  set ps2 := reb_update_acceleration grav ps1 with hps2
  set ψ2 := kick d r.scale r.N ψ1 ps2 with hψ2
  set ψ3 := drift d r.N ψ2 with hψ3
  have hψ1l : ψ1.length = r.N := by rw [hψ1, drift_length]; exact hc
  have hψ1e : ψ1 = r.p_curr.map (drift1 d) := by rw [hψ1]; exact drift_eq_map hc
  have hps1l : ps1.length = r.N := by
    rw [hps1, to_double_length (le_of_eq hψ1l.symm)]; exact hp
  have hps1e : ps1 = List.zipWith (to_double1 r.scale) ψ1 r.particles := by
    rw [hps1]; exact to_double_eq_zipWith hψ1l hp
  have hps2l : ps2.length = r.N := by
    rw [hps2, reb_update_acceleration, writeAcc_length]; exact hps1l
  have hψ2l : ψ2.length = r.N := by
    rw [hψ2]; exact kick_length _ _ _ _ _ hψ1l (le_of_eq hps2l.symm)
  have hψ2e : ψ2 = List.zipWith (kick1 d r.scale) ψ1 ps2 := by
    rw [hψ2]; exact kick_eq_zipWith hψ1l hps2l
  have hψ3l : ψ3.length = r.N := by rw [hψ3, drift_length]; exact hψ2l
  have hψ3e : ψ3 = ψ2.map (drift1 d) := by rw [hψ3]; exact drift_eq_map hψ2l
  have hφ1 : drift (-d) r.N ψ3 = ψ2 := by
    rw [drift_eq_map hψ3l, hψ3e]
    exact map_inv_cancel (drift1 d) (drift1 (-d)) (drift1_inv d) ψ2
  rw [hφ1]
  set qs1 := to_double ps2 ψ2 r.N r.scale with hqs1
  have hqs1l : qs1.length = r.N := by
    rw [hqs1, to_double_length (le_of_eq hψ2l.symm)]; exact hps2l
  have hqs1e : qs1 = List.zipWith (to_double1 r.scale) ψ2 ps2 := by
    rw [hqs1]; exact to_double_eq_zipWith hψ2l hps2l
  have hm2 : ps2.map Particle.m = r.particles.map Particle.m := by
    rw [hps2, reb_update_acceleration, map_writeAcc Particle.m (fun p a => rfl),
      hps1e, List.map_zipWith]
    have he : (fun (q : ParticleInt) (p : Particle) => (to_double1 r.scale q p).m)
        = fun _ p => p.m := rfl
    rw [he, zipWith_right_map Particle.m ψ1 r.particles
      (le_of_eq (hp.trans hψ1l.symm))]
  have hmpos : qs1.map mposOf = ps1.map mposOf := by
    rw [hqs1e, hψ2e, List.map_zipWith, zipWith_zipWith_same]
    have h1 : (fun (a : ParticleInt) (b : Particle) =>
          mposOf (to_double1 r.scale (kick1 d r.scale a b) b))
        = fun a b => mposOf (to_double1 r.scale a b) := rfl
    rw [h1, hps1e, List.map_zipWith]
    exact zipWith_congr_right _ Particle.m
      (fun a b b' h => by simp [mposOf, to_double1, h]) ψ1 ps2 r.particles hm2
  have hA : grav qs1 = grav ps1 := hgrav _ _ hmpos
  have hacc_qs1 : qs1.map accOf = ps2.map accOf := by
    rw [hqs1e, List.map_zipWith]
    have h1 : (fun (q : ParticleInt) (p : Particle) => accOf (to_double1 r.scale q p))
        = fun _ p => accOf p := rfl
    rw [h1]
    exact zipWith_right_map accOf ψ2 ps2 (le_of_eq (hps2l.trans hψ2l.symm))
  have hqs2 : (reb_update_acceleration grav qs1).map accOf = ps2.map accOf := by
    rw [reb_update_acceleration, hA,
      map_accOf_writeAcc_congr qs1 ps2 (grav ps1) hacc_qs1, hps2,
      reb_update_acceleration, writeAcc_writeAcc]
  have hkick : kick (-d) r.scale r.N ψ2 (reb_update_acceleration grav qs1) = ψ1 := by
    have hlen : (reb_update_acceleration grav qs1).length = r.N := by
      rw [reb_update_acceleration, writeAcc_length]; exact hqs1l
    rw [kick_eq_zipWith hψ2l hlen, hψ2e]
    exact kick_zip_inv d r.scale ψ1 ps2 _ hqs2.symm
      (le_of_eq (hψ1l.trans hps2l.symm))
  rw [hkick, drift_eq_map hψ1l, hψ1e]
  exact map_inv_cancel (drift1 d) (drift1 (-d)) (drift1_inv d) r.p_curr

/-- Witness for C1: a forward-then-backward sub-step of duration 1 on a
concrete one-particle simulation with a mass/position-dependent (here zero)
force evaluation restores the shadow state exactly. -/
theorem leapfrog_time_reversible_witness :
    (leapfrog gravZero (leapfrog gravZero simC 1) (-1)).p_curr = simC.p_curr := by
  refine leapfrog_time_reversible gravZero (fun a b h => ?_) simC 1 rfl rfl
  have hl : a.length = b.length := by simpa using congrArg List.length h
  simp [gravZero, hl]

theorem leapfrog_sync (grav : Grav)
    (hglen : ∀ ps, (grav ps).length = ps.length)
    (hgrav : ∀ a b : List Particle, a.map mstateOf = b.map mstateOf → grav a = grav b)
    (r1 r2 : Simulation) (d : ℚ)
    (hN : r1.N = r2.N) (hs : r1.scale = r2.scale) (hψ : r1.p_curr = r2.p_curr)
    (hm : r1.particles.map Particle.m = r2.particles.map Particle.m)
    (hp1 : r1.particles.length = r1.N) (hp2 : r2.particles.length = r2.N)
    (hc2 : r2.p_curr.length = r2.N) :
    (leapfrog grav r1 d).p_curr = (leapfrog grav r2 d).p_curr
    ∧ (leapfrog grav r1 d).particles = (leapfrog grav r2 d).particles := by
  have hXl : (drift d r2.N r2.p_curr).length = r2.N := by
    rw [drift_length]; exact hc2
  have ha : to_double r1.particles (drift d r2.N r2.p_curr) r2.N r2.scale
      = List.zipWith (to_double1 r2.scale) (drift d r2.N r2.p_curr) r1.particles :=
    to_double_eq_zipWith hXl (by rw [hp1, hN])
  have hb : to_double r2.particles (drift d r2.N r2.p_curr) r2.N r2.scale
      = List.zipWith (to_double1 r2.scale) (drift d r2.N r2.p_curr) r2.particles :=
    to_double_eq_zipWith hXl hp2
  have hmstate :
      (to_double r1.particles (drift d r2.N r2.p_curr) r2.N r2.scale).map mstateOf
      = (to_double r2.particles (drift d r2.N r2.p_curr) r2.N r2.scale).map mstateOf := by
    rw [ha, hb, List.map_zipWith, List.map_zipWith]
    exact zipWith_congr_right _ Particle.m
      (fun a b b' h => by simp [mstateOf, to_double1, h]) _ _ _ hm
  have key : reb_update_acceleration grav
        (to_double r1.particles (drift d r2.N r2.p_curr) r2.N r2.scale)
      = reb_update_acceleration grav
        (to_double r2.particles (drift d r2.N r2.p_curr) r2.N r2.scale) := by
    rw [reb_update_acceleration, reb_update_acceleration, hgrav _ _ hmstate]
    apply writeAcc_eq_of_mstate_eq _ _ _ hmstate
    rw [hglen]
    have hal :
        (to_double r1.particles (drift d r2.N r2.p_curr) r2.N r2.scale).length
          = r1.particles.length := to_double_length (le_of_eq hXl.symm)
    have hbl :
        (to_double r2.particles (drift d r2.N r2.p_curr) r2.N r2.scale).length
          = r2.particles.length := to_double_length (le_of_eq hXl.symm)
    omega
  constructor
  · rw [leapfrog_p_curr, leapfrog_p_curr, hN, hs, hψ, key]
  · rw [leapfrog_particles, leapfrog_particles, hN, hs, hψ, key]

theorem leapfrog_congr (grav : Grav) (d : ℚ) (s1 s2 : Simulation)
    (hN : s1.N = s2.N) (hs : s1.scale = s2.scale) (hψ : s1.p_curr = s2.p_curr)
    (hps : s1.particles = s2.particles) :
    (leapfrog grav s1 d).N = (leapfrog grav s2 d).N
    ∧ (leapfrog grav s1 d).scale = (leapfrog grav s2 d).scale
    ∧ (leapfrog grav s1 d).p_curr = (leapfrog grav s2 d).p_curr
    ∧ (leapfrog grav s1 d).particles = (leapfrog grav s2 d).particles := by
  refine ⟨?_, ?_, ?_, ?_⟩
  · rw [leapfrog_N, leapfrog_N, hN]
  · rw [leapfrog_scale, leapfrog_scale, hs]
  · rw [leapfrog_p_curr, leapfrog_p_curr, hN, hs, hψ, hps]
  · rw [leapfrog_particles, leapfrog_particles, hN, hs, hψ, hps]

theorem foldl_leapfrog_congr (grav : Grav) (d : ℚ) :
    ∀ (cs : List ℚ) (s1 s2 : Simulation),
      s1.N = s2.N → s1.scale = s2.scale → s1.p_curr = s2.p_curr →
      s1.particles = s2.particles →
      (List.foldl (fun s c => leapfrog grav s (c * d)) s1 cs).p_curr =
        (List.foldl (fun s c => leapfrog grav s (c * d)) s2 cs).p_curr
      ∧ (List.foldl (fun s c => leapfrog grav s (c * d)) s1 cs).particles =
        (List.foldl (fun s c => leapfrog grav s (c * d)) s2 cs).particles := by
  intro cs
  induction cs with
  | nil => intro s1 s2 _ _ hψ hps; exact ⟨hψ, hps⟩
  | cons c cs ih =>
    intro s1 s2 hN hs hψ hps
    simp only [List.foldl_cons]
    have hstep := leapfrog_congr grav (c * d) s1 s2 hN hs hψ hps
    exact ih _ _ hstep.1 hstep.2.1 hstep.2.2.1 hstep.2.2.2

theorem foldl_leapfrog_sync (grav : Grav)
    (hglen : ∀ ps, (grav ps).length = ps.length)
    (hgrav : ∀ a b : List Particle, a.map mstateOf = b.map mstateOf → grav a = grav b)
    (d c : ℚ) (cs : List ℚ) (s1 s2 : Simulation)
    (hN : s1.N = s2.N) (hs : s1.scale = s2.scale) (hψ : s1.p_curr = s2.p_curr)
    (hm : s1.particles.map Particle.m = s2.particles.map Particle.m)
    (hp1 : s1.particles.length = s1.N) (hp2 : s2.particles.length = s2.N)
    (hc2 : s2.p_curr.length = s2.N) :
    (List.foldl (fun s c => leapfrog grav s (c * d)) s1 (c :: cs)).p_curr =
      (List.foldl (fun s c => leapfrog grav s (c * d)) s2 (c :: cs)).p_curr
    ∧ (List.foldl (fun s c => leapfrog grav s (c * d)) s1 (c :: cs)).particles =
      (List.foldl (fun s c => leapfrog grav s (c * d)) s2 (c :: cs)).particles := by
  simp only [List.foldl_cons]
  have hfirst := leapfrog_sync grav hglen hgrav s1 s2 (c * d) hN hs hψ hm hp1 hp2 hc2
  exact foldl_leapfrog_congr grav d cs _ _
    (by rw [leapfrog_N, leapfrog_N]; exact hN)
    (by rw [leapfrog_scale, leapfrog_scale]; exact hs)
    hfirst.1 hfirst.2

/-- C9: when `allocated_N = N` at entry, `part1` is independent of the
floating-point particle coordinates and accelerations at entry.  Two runs
from the same fixed-point shadow state, the same masses, and the same
deterministic force evaluation (a length-preserving function of the
particles' mass/position/velocity state, as the gravity collaborator is),
whose particle coordinate and acceleration fields differ arbitrarily at
entry, produce identical fixed-point shadow states and identical
floating-point particle coordinates. -/
theorem part1_noninterference (grav : Grav)
    (hglen : ∀ ps, (grav ps).length = ps.length)
    (hgrav : ∀ a b : List Particle, a.map mstateOf = b.map mstateOf → grav a = grav b)
    (r1 r2 : Simulation)
    (hN : r1.N = r2.N) (hdt : r1.dt = r2.dt) (hs : r1.scale = r2.scale)
    (halloc1 : r1.allocated_N = r1.N) (halloc2 : r2.allocated_N = r2.N)
    (hψ : r1.p_curr = r2.p_curr)
    (hm : r1.particles.map Particle.m = r2.particles.map Particle.m)
    (hp1 : r1.particles.length = r1.N) (hp2 : r2.particles.length = r2.N)
    (hc1 : r1.p_curr.length = r1.N) :
    (reb_integrator_janus_part1 grav r1).p_curr =
      (reb_integrator_janus_part1 grav r2).p_curr
    ∧ (reb_integrator_janus_part1 grav r1).particles.map coordsOf =
      (reb_integrator_janus_part1 grav r2).particles.map coordsOf := by
  have hc2 : r2.p_curr.length = r2.N := by
    rw [← hψ, hc1]; exact hN
  have hsetup1 : janus_setup r1 = { r1 with gravity_ignore_terms := 0 } := by
    unfold janus_setup; rw [if_neg (not_ne_iff.mpr halloc1)]
  have hsetup2 : janus_setup r2 = { r2 with gravity_ignore_terms := 0 } := by
    unfold janus_setup; rw [if_neg (not_ne_iff.mpr halloc2)]
  rw [part1_eq_foldl, part1_eq_foldl, hdt, hsetup1, hsetup2]
  have h := foldl_leapfrog_sync grav hglen hgrav r2.dt gamma1
    [gamma2, gamma3, gamma4, gamma5, gamma4, gamma3, gamma2, gamma1]
    { r1 with gravity_ignore_terms := 0 } { r2 with gravity_ignore_terms := 0 }
    hN hs hψ hm hp1 hp2 hc2
  exact ⟨h.1, by rw [h.2]⟩

/-- Witness for C9: two concrete runs whose particles differ in every
coordinate and acceleration field but share masses and the shadow state give
identical results under a concrete mass/position/velocity-dependent force
evaluation. -/
theorem part1_noninterference_witness :
    (reb_integrator_janus_part1 gravOne simC).p_curr =
      (reb_integrator_janus_part1 gravOne simD).p_curr
    ∧ (reb_integrator_janus_part1 gravOne simC).particles.map coordsOf =
      (reb_integrator_janus_part1 gravOne simD).particles.map coordsOf := by
  refine part1_noninterference gravOne (fun ps => by simp [gravOne])
    (fun a b h => ?_) simC simD rfl rfl rfl rfl rfl rfl rfl rfl rfl rfl
  have hl : a.length = b.length := by simpa using congrArg List.length h
  simp [gravOne, hl]

end Janus
